import Mathlib

/-!
Verification development for the toak repository
(seemueller-io/toak): the TokenCleaner content-transformation pipeline
(src/TokenCleaner.ts) and the MarkdownGenerator file-selection and
document-assembly logic (src/MarkdownGenerator.ts).

Texts are modelled as lists of characters (`Str`).  Every regex rule of
the source is translated into an executable matcher that reproduces the
JavaScript `String.replace` semantics for that concrete pattern:
the buffer is scanned left to right over the original text, at each
position the rule either matches (consuming at least one character and
emitting a replacement) or the scanner advances by one character.
Lookbehinds inspect the already-scanned part of the original buffer,
exactly as in JavaScript, where all matching happens against the
original string and replacements never re-feed the matcher.

The JavaScript whitespace class and the multiline anchors are modelled
for the ASCII range (space, tab, line feed, carriage return, vertical
tab, form feed; terminators line feed and carriage return).  Unicode
whitespace and the U+2028/U+2029 terminators are not modelled; no input
considered in this development contains them.
-/

namespace Toak

abbrev Str := List Char

/-- Inclusive character-range test. -/
def between (lo hi c : Char) : Bool := lo ≤ c && c ≤ hi

def isWsC (c : Char) : Bool :=
  ((' ' :: '\t' :: '\n' :: '\x0b' :: '\x0c' :: ['\r']) : Str).contains c

def isTermC (c : Char) : Bool := (('\n' :: ['\r']) : Str).contains c

def isQuoteC (c : Char) : Bool := (('\'' :: ['\"']) : Str).contains c

def isUpperAZ (c : Char) : Bool := between 'A' 'Z' c

def isDigitC (c : Char) : Bool := between '0' '9' c

def isLowerAZ (c : Char) : Bool := between 'a' 'z' c

def isAlphaC (c : Char) : Bool := isLowerAZ c || isUpperAZ c

def isAlnumC (c : Char) : Bool := isAlphaC c || isDigitC c

/-- Word characters of the JavaScript backslash-w class. -/
def isWordC (c : Char) : Bool := isAlnumC c || c == '_'

/-- Hexadecimal characters of the case-insensitive class a-f, 0-9. -/
def isHexC (c : Char) : Bool :=
  isDigitC c || between 'a' 'f' c || between 'A' 'F' c

/-- Base64 characters A-Z, a-z, 0-9, plus sign and slash. -/
def isB64C (c : Char) : Bool := isAlnumC c || c == '+' || c == '/'

/-- Bearer-token characters: letters, digits, hyphen, dot, underscore,
tilde, plus, slash. -/
def isTokC (c : Char) : Bool :=
  isAlnumC c || c == '-' || c == '.' || c == '_' ||
  c == '~' || c == '+' || c == '/'

def startsWithL : Str → Str → Bool
  | [], _ => true
  | _ :: _, [] => false
  | p :: ps, c :: cs => p == c && startsWithL ps cs

/-- Case-insensitive variant of `startsWithL` (first argument is the
pattern). -/
def startsWithCI : Str → Str → Bool
  | [], _ => true
  | _ :: _, [] => false
  | p :: ps, c :: cs => p.toLower == c.toLower && startsWithCI ps cs

/-- Index of the last character satisfying `p`, if any. -/
def lastIdxWhere (p : Char → Bool) : Str → Option Nat
  | [] => none
  | c :: t =>
    match lastIdxWhere p t with
    | some k => some (k + 1)
    | none => if p c then some 0 else none

/-- Does the scanned-so-far reversed buffer sit at a line start
(start of string, or right after a line terminator)?  This is the
multiline caret of the JavaScript regexes. -/
def atLineStart (rev : Str) : Bool :=
  match rev with
  | [] => true
  | c :: _ => isTermC c

/-- A matcher receives the reversed already-scanned part of the original
buffer and the remaining part, and either fails or returns the number of
consumed characters (always at least one for the rules modelled here)
together with the replacement text. -/
abbrev Matcher := Str → Str → Option (Nat × Str)

/-- Global-replace scanner: repeatedly tries `m`; on failure advances by
one character, on success emits the replacement and skips the match.
`fuel` only serves to make the recursion structural; `applyRule` always
supplies the length of the buffer, which suffices because every step
consumes at least one character. -/
def scanF (m : Matcher) : Nat → Str → Str → Str
  | _, _, [] => []
  | 0, _, rest => rest
  | fuel + 1, rev, c :: rest =>
    match m rev (c :: rest) with
    | some (n, repl) =>
        repl ++ scanF m fuel (((c :: rest).take n).reverse ++ rev) (rest.drop (n - 1))
    | none => c :: scanF m fuel (c :: rev) rest

/-- One global regex replacement pass over the whole buffer. -/
def applyRule (m : Matcher) (s : Str) : Str := scanF m s.length [] s

/-- Fuel-free view of the scanner used by the proofs; `applyRule m s`
is definitionally `runRule m [] s`. -/
def runRule (m : Matcher) (rev rest : Str) : Str := scanF m rest.length rev rest

/-! ### The structural cleanup rules (TokenCleaner.patterns)

Rule 1: single-line comments — two slashes up to end of line
(multiline, global). -/

def r1 : Matcher := fun _ rest =>
  match rest with
  | '/' :: '/' :: t => some (2 + (t.takeWhile (fun c => !isTermC c)).length, [])
  | _ => none

/-- Length up to and including the first star-slash closer, if any
(the non-greedy body of the multi-line comment rule). -/
def findClose : Str → Option Nat
  | '*' :: '/' :: _ => some 2
  | _ :: t => (findClose t).map (· + 1)
  | [] => none

/-- Rule 2: multi-line comments, non-greedy. -/
def r2 : Matcher := fun _ rest =>
  match rest with
  | '/' :: '*' :: t =>
    match findClose t with
    | some k => some (2 + k, [])
    | none => none
  | _ => none

/-- Variant selector of the console rule: one of log, error, warn, info,
followed by an opening parenthesis; returns the consumed length. -/
def r3var (t : Str) : Option Nat :=
  if startsWithL ("log(".toList) t then some 4
  else if startsWithL ("error(".toList) t then some 6
  else if startsWithL ("warn(".toList) t then some 5
  else if startsWithL ("info(".toList) t then some 5
  else none

/-- Rule 3: console statements — console dot variant, lazily up to the
first closing parenthesis on the same line, optionally a semicolon. -/
def r3 : Matcher := fun _ rest =>
  if startsWithL ("console.".toList) rest then
    match r3var (rest.drop 8) with
    | some v =>
      let u := rest.drop (8 + v)
      let inner := u.takeWhile (fun c => !isTermC c && c != ')')
      match u.drop inner.length with
      | ')' :: w =>
        some (8 + v + inner.length + 1 + (if w.head? == some ';' then 1 else 0), [])
      | _ => none
    | none => none
  else none

/-- Rule 4: empty lines — at a line start, greedy whitespace that must
end with a line terminator; backtracking makes the match run up to the
last terminator inside the whitespace run. -/
def r4 : Matcher := fun rev rest =>
  if atLineStart rev then
    match lastIdxWhere isTermC (rest.takeWhile isWsC) with
    | some k => some (k + 1, [])
    | none => none
  else none

/-- Rule 5: trailing spaces — one or more spaces right before a line end. -/
def r5 : Matcher := fun _ rest =>
  match rest with
  | ' ' :: t =>
    let run := t.takeWhile (· == ' ')
    match t.drop run.length with
    | [] => some (1 + run.length, [])
    | c :: _ => if isTermC c then some (1 + run.length, []) else none
  | _ => none

/-- Does the buffer sit at a (multiline) dollar position: end of input
or just before a line terminator? -/
def r6dollar (l : Str) : Bool :=
  match l with
  | [] => true
  | c :: _ => isTermC c

/-- Descending search n, n-1, ..., 0: first success wins (greedy star). -/
def descTry0 (q : Nat → Option Nat) : Nat → Option Nat
  | 0 => q 0
  | n + 1 =>
    match q (n + 1) with
    | some r => some r
    | none => descTry0 q n

/-- Descending search n, n-1, ..., 1: first success wins (greedy plus). -/
def descTry1 (q : Nat → Option Nat) : Nat → Option Nat
  | 0 => none
  | n + 1 =>
    match q (n + 1) with
    | some r => some r
    | none => descTry1 q n

/-- Ascending search start, start+1, ... for `fuel` candidates
(lazy star). -/
def ascTry (q : Nat → Option Nat) : Nat → Nat → Option Nat
  | _, 0 => none
  | n, fuel + 1 =>
    match q n with
    | some r => some r
    | none => ascTry q (n + 1) fuel

/-- Greedy whitespace star followed by a dollar anchor: the longest
whitespace count after which the buffer is at a line end. -/
def r6sstar (l : Str) : Option Nat :=
  descTry0 (fun s => if r6dollar (l.drop s) then some s else none)
    (l.takeWhile isWsC).length

/-- Optional semicolon, then whitespace star, then dollar; returns the
consumed length.  The semicolon-present branch is preferred; when the
head is a semicolon the absent branch can never reach a dollar. -/
def r6afterDot (v : Str) : Option Nat :=
  match v with
  | ';' :: v' =>
    match r6sstar v' with
    | some s => some (1 + s)
    | none => none
  | _ => r6sstar v

/-- Lazy dot-star (no terminators) before the optional semicolon:
shortest prefix that lets the tail match. -/
def r6dot (u' : Str) : Option Nat :=
  let L := (u'.takeWhile (fun c => !isTermC c)).length
  ascTry (fun n => (r6afterDot (u'.drop n)).map (n + ·)) 0 (L + 1)

/-- Backtracking tail of the import rule after the literal `import`:
greedy whitespace-plus, then the lazy rest; returns consumed length
counted from just after the literal. -/
def r6tail (u : Str) (wlen : Nat) : Option Nat :=
  descTry1 (fun a => (r6dot (u.drop a)).map (a + ·)) wlen

/-- Rule 6: import statements — at a line start, whitespace star, the
literal `import`, whitespace plus, then a lazy remainder with optional
semicolon and trailing whitespace up to a line end. -/
def r6 : Matcher := fun rev rest =>
  if atLineStart rev then
    let ws := rest.takeWhile isWsC
    let t := rest.drop ws.length
    if startsWithL ("import".toList) t then
      let u := t.drop 6
      let w := u.takeWhile isWsC
      if w.length == 0 then none
      else
        match r6tail u w.length with
        | some tl => some (ws.length + 6 + tl, [])
        | none => none
    else none
  else none

/-- Rule 7: multiple newlines — at a line start, greedy whitespace then
one or more line feeds, replaced by a single line feed; backtracking
makes the match end at the last line feed of the whitespace run. -/
def r7 : Matcher := fun rev rest =>
  if atLineStart rev then
    match lastIdxWhere (· == '\n') (rest.takeWhile isWsC) with
    | some k => some (k + 1, ['\n'])
    | none => none
  else none

/-- JavaScript String.trim over the modelled whitespace class. -/
def trimL (s : Str) : Str :=
  ((s.dropWhile isWsC).reverse.dropWhile isWsC).reverse

/-! ### The secret-redaction rules (TokenCleaner.secretPatterns)

Lookbehind assertions inspect the reversed already-scanned buffer; they
succeed when some suffix of the scanned part matches the lookbehind
pattern ending exactly at the current position, which for these
patterns is decided deterministically right to left. -/

/-- Credential-name vocabulary with the optional underscore or hyphen
separators expanded (api key, api secret, access token, auth token,
client secret, password, secret key, private key). -/
def keyCandidates : List Str :=
  (["apikey", "api_key", "api-key",
    "apisecret", "api_secret", "api-secret",
    "accesstoken", "access_token", "access-token",
    "authtoken", "auth_token", "auth-token",
    "clientsecret", "client_secret", "client-secret",
    "password",
    "secretkey", "secret_key", "secret-key",
    "privatekey", "private_key", "private-key"]).map String.toList

/-- Lookbehind of the quoted key-value rule, read backwards from the
current position: closing quote of the key-side, optional whitespace,
colon, a quote, the key name (case-insensitive), and an opening quote. -/
def s1Behind (rev : Str) : Bool :=
  match rev with
  | q1 :: r1 =>
    isQuoteC q1 &&
    (match r1.dropWhile isWsC with
     | ':' :: r3 =>
       (match r3 with
        | q2 :: r4 =>
          isQuoteC q2 &&
          keyCandidates.any (fun k =>
            startsWithCI k.reverse r4 &&
            (match (r4.drop k.length).head? with
             | some q3 => isQuoteC q3
             | none => false))
        | [] => false)
     | _ => false)
  | [] => false

/-- Greedy run of non-quote characters followed by a quote lookahead;
shared by the two key-value rules.  Returns length and replacement. -/
def quotedValueMatch (rest : Str) : Option (Nat × Str) :=
  match rest with
  | c :: _ =>
    if isQuoteC c then none
    else
      let run := rest.takeWhile (fun d => !isQuoteC d)
      match (rest.drop run.length).head? with
      | some q => if isQuoteC q then some (run.length, "[REDACTED]".toList) else none
      | none => none
  | [] => none

/-- Secret rule 1: value of a quoted credential assignment. -/
def s1 : Matcher := fun rev rest =>
  if s1Behind rev then quotedValueMatch rest else none

def isJwtC1 (c : Char) : Bool := isAlnumC c || c == '-' || c == '_' || c == '='

def isJwtC3 (c : Char) : Bool :=
  isAlnumC c || c == '-' || c == '_' || c == '.' || c == '+' || c == '/' || c == '='

/-- Lookbehind of the JWT rule: quote, whitespace star, equals sign,
whitespace star, a word run, whitespace plus, the literal `const`
(case-sensitive), read backwards. -/
def s2Behind (rev : Str) : Bool :=
  match rev with
  | q :: r1 =>
    isQuoteC q &&
    (match r1.dropWhile isWsC with
     | '=' :: r3 =>
       let r4 := r3.dropWhile isWsC
       let wrun := r4.takeWhile isWordC
       !wrun.isEmpty &&
       (let r5 := r4.drop wrun.length
        let srun := r5.takeWhile isWsC
        !srun.isEmpty && startsWithL ("tsnoc".toList) (r5.drop srun.length))
     | _ => false)
  | [] => false

/-- Secret rule 2: JWT-shaped three-segment token inside a const string
assignment. -/
def s2 : Matcher := fun rev rest =>
  if s2Behind rev then
    if startsWithL ("eyJ".toList) rest then
      let t := rest.drop 3
      let a := t.takeWhile isJwtC1
      if a.isEmpty then none
      else
        match t.drop a.length with
        | '.' :: u =>
          let b := u.takeWhile isJwtC1
          if b.isEmpty then none
          else
            match u.drop b.length with
            | '.' :: v =>
              let cpart := v.takeWhile isJwtC3
              match (v.drop cpart.length).head? with
              | some q =>
                if isQuoteC q then
                  some (3 + a.length + 1 + b.length + 1 + cpart.length,
                    "[REDACTED_JWT]".toList)
                else none
              | none => none
            | _ => none
        | _ => none
    else none
  else none

/-- Lookbehind of the unquoted-assignment rule: quote, whitespace star,
equals sign, whitespace star, the key name (case-insensitive, with no
boundary requirement before it), read backwards. -/
def s3Behind (rev : Str) : Bool :=
  match rev with
  | q :: r1 =>
    isQuoteC q &&
    (match r1.dropWhile isWsC with
     | '=' :: r3 =>
       keyCandidates.any (fun k => startsWithCI k.reverse (r3.dropWhile isWsC))
     | _ => false)
  | [] => false

/-- Secret rule 3: value of an unquoted credential assignment. -/
def s3 : Matcher := fun rev rest =>
  if s3Behind rev then quotedValueMatch rest else none

/-- Lookbehind of the bearer rule: whitespace plus, then the literal
`bearer` (case-insensitive), read backwards. -/
def s4Behind (rev : Str) : Bool :=
  let wrun := rev.takeWhile isWsC
  !wrun.isEmpty && startsWithCI ("reraeb".toList) (rev.drop wrun.length)

/-- Token body shared by the two bearer rules: a run of token characters
followed by a greedy run of equals signs. -/
def bearerBody (rest : Str) : Option (Nat × Str) :=
  let run := rest.takeWhile isTokC
  if run.isEmpty then none
  else
    some (run.length + ((rest.drop run.length).takeWhile (· == '=')).length,
      "[REDACTED]".toList)

/-- Secret rule 4: token after the word bearer. -/
def s4 : Matcher := fun rev rest =>
  if s4Behind rev then bearerBody rest else none

/-- Lookbehind of the authorization-header rule: whitespace plus, the
literal `Bearer`, whitespace star, a colon, the literal `Authorization`
(all case-insensitive), read backwards. -/
def s5Behind (rev : Str) : Bool :=
  let w1 := rev.takeWhile isWsC
  !w1.isEmpty &&
  (let r1 := rev.drop w1.length
   startsWithCI ("reraeb".toList) r1 &&
   (match (r1.drop 6).dropWhile isWsC with
    | ':' :: r3 => startsWithCI ("noitazirohtua".toList) r3
    | _ => false))

/-- Secret rule 5: token after an Authorization Bearer header. -/
def s5 : Matcher := fun rev rest =>
  if s5Behind rev then bearerBody rest else none

/-- Body test of the hash rule: the next `n` characters all hexadecimal
(the all-test comes first so that a non-hex character fails the test
without inspecting the rest of the buffer). -/
def hexAlt (rest : Str) (n : Nat) : Bool :=
  (rest.take n).all isHexC && (rest.take n).length == n

/-- Secret rule 6: a run of exactly 40 (preferred) or 64 hexadecimal
characters, with no boundary assertions. -/
def s6 : Matcher := fun _ rest =>
  if hexAlt rest 40 then some (40, "[REDACTED_HASH]".toList)
  else if hexAlt rest 64 then some (64, "[REDACTED_HASH]".toList)
  else none

/-- Body-plus-lookahead test of the base64 rule: `n` base64 characters
followed by a non-alphanumeric character or the end of input. -/
def b64Alt (rest : Str) (n : Nat) : Bool :=
  (rest.take n).all isB64C && (rest.take n).length == n &&
  (match (rest.drop n).head? with
   | none => true
   | some c => !isAlnumC c)

/-- Secret rule 7: a standalone run of 40 (preferred) or 64 base64
characters, bounded by non-alphanumeric characters or the string edges.
The body is examined before the lookbehind; the outcome is the same as
checking the lookbehind first. -/
def s7 : Matcher := fun rev rest =>
  let alt : Option Nat :=
    if b64Alt rest 40 then some 40
    else if b64Alt rest 64 then some 64
    else none
  match alt with
  | some n =>
    match rev.head? with
    | none => some (n, "[REDACTED_BASE64]".toList)
    | some c => if isAlnumC c then none else some (n, "[REDACTED_BASE64]".toList)
  | none => none

namespace TokenCleaner

/-- TokenCleaner.patterns with no caller-supplied custom patterns, the
configuration used by MarkdownGenerator's default construction. -/
def patterns : List Matcher := [r1, r2, r3, r4, r5, r6, r7]

/-- TokenCleaner.clean: fold the structural rules over the buffer in
order, each rule a full-buffer global replacement. -/
def clean (s : Str) : Str :=
  patterns.foldl (fun acc m => applyRule m acc) s

/-- TokenCleaner.secretPatterns with no caller-supplied custom
patterns, in source order. -/
def secretPatterns : List Matcher := [s1, s2, s3, s4, s5, s6, s7]

/-- TokenCleaner.redactSecrets: fold the secret rules over the buffer in
order. -/
def redactSecrets (s : Str) : Str :=
  secretPatterns.foldl (fun acc m => applyRule m acc) s

/-- Match of the redaction-marker literal at the head of a line suffix:
`[REDACTED]`, or `[REDACTED_` followed by one or more capital letters
and `]`. -/
def markerAt (l : Str) : Bool :=
  startsWithL ("[REDACTED".toList) l &&
  (match l.drop 9 with
   | ']' :: _ => true
   | '_' :: u =>
     let caps := u.takeWhile isUpperAZ
     !caps.isEmpty &&
     (match u.drop caps.length with
      | ']' :: _ => true
      | _ => false)
   | _ => false)

/-- Does the line contain a redaction marker anywhere? -/
def lineHasMarker : Str → Bool
  | [] => false
  | c :: t => markerAt (c :: t) || lineHasMarker t

/-- Apply `f` to every line of the buffer (lines are maximal terminator-
free spans; the terminators themselves are preserved).  `acc` holds the
current line read so far, reversed. -/
def mapLinesGo (f : Str → Str) (acc : Str) : Str → Str
  | [] => f acc.reverse
  | c :: rest =>
    if isTermC c then f acc.reverse ++ c :: mapLinesGo f [] rest
    else mapLinesGo f (c :: acc) rest

/-- The marker-line removal step of cleanAndRedact: the multiline global
regex caret dot-star marker dot-star dollar replaced by the empty
string, which erases exactly the body of every line containing a
marker and keeps the terminators. -/
def removeRedactedLines (s : Str) : Str :=
  mapLinesGo (fun line => if lineHasMarker line then [] else line) [] s

/-- TokenCleaner.cleanAndRedact: redact secrets, erase whole lines that
contain redacted content, run the structural clean, then trim. -/
def cleanAndRedact (code : Str) : Str :=
  let redactedCode := redactSecrets code
  let withoutRedactedLines := removeRedactedLines redactedCode
  let cleanedCode := clean withoutRedactedLines
  trimL cleanedCode

/-- Length of the redaction-marker literal at the head of the buffer,
if one starts here. -/
def markerLen (l : Str) : Option Nat :=
  if startsWithL ("[REDACTED".toList) l then
    match l.drop 9 with
    | ']' :: _ => some 10
    | '_' :: u =>
      let caps := u.takeWhile isUpperAZ
      if !caps.isEmpty then
        match u.drop caps.length with
        | ']' :: _ => some (10 + caps.length + 1)
        | _ => none
      else none
    | _ => none
  else none

def onlyMarkersGo : Nat → Str → Bool
  | _, [] => true
  | 0, _ => false
  | f + 1, l =>
    match markerLen l with
    | some k => onlyMarkersGo f (l.drop k)
    | none => false

/-- Does the line consist solely of one or more redaction markers, with
nothing else on it?  This is the wording of claim C1 for the line
removal step. -/
def lineOnlyMarkers (l : Str) : Bool := !l.isEmpty && onlyMarkersGo l.length l

/-- Line-removal step as claim C1 words it: only lines consisting solely
of redaction markers are erased. -/
def removeOnlyMarkerLines (s : Str) : Str :=
  mapLinesGo (fun line => if lineOnlyMarkers line then [] else line) [] s

/-- The cleanAndRedact pipeline with the line-removal phase as claim C1
words it (redact, drop lines consisting solely of markers, structural
clean, trim). -/
def cleanAndRedactClaimC1 (code : Str) : Str :=
  trimL (clean (removeOnlyMarkerLines (redactSecrets code)))

/-- The cleanAndRedact pipeline with the line-removal phase as the
amended claim words it: redact, drop every whole line containing a
redaction marker, structural clean, trim. -/
def cleanAndRedactAmended (code : Str) : Str :=
  trimL (clean (removeRedactedLines (redactSecrets code)))

end TokenCleaner

/-- Decomposition of a buffer into its lines (maximal terminator-free
spans; the bounding terminators are dropped). -/
def linesOf : Str → List Str
  | [] => [[]]
  | c :: rest =>
    if isTermC c then [] :: linesOf rest
    else
      match linesOf rest with
      | l :: ls => (c :: l) :: ls
      | [] => [[c]]

/-- The hexadecimal alphabet as an explicit character list. -/
def hexChars : Str := "0123456789abcdefABCDEF".toList

/-- Invariant for the quote-guarded lookbehind rules: no quote character
occurs anywhere in the buffer. -/
def NoQuote (rev rest : Str) : Prop := ∀ c ∈ rev ++ rest, isQuoteC c = false

/-- Invariant for the bearer rules: no character of the buffer
lower-cases to the letter r, so the reversed literal bearer can never
match. -/
def NoRLike (rev rest : Str) : Prop :=
  ∀ c ∈ rev ++ rest, ('r'.toLower == c.toLower) = false

/-- Invariant for the hash and base64 rules over the neutral windows of
claim C7: the remaining buffer is a hexadecimal run of at most 39
characters followed by the literal tail, or a suffix of that tail;
every 40-character window then contains the space, so neither length
alternative can fire. -/
def HexWindow39 (rest : Str) : Prop :=
  (∃ h', (∀ c ∈ h', c ∈ hexChars) ∧ h'.length ≤ 39 ∧
    rest = h' ++ (" end".toList)) ∨
  rest = ("end".toList) ∨ rest = ("nd".toList) ∨ rest = ("d".toList) ∨ rest = []

/-- JavaScript String.trimEnd over the modelled whitespace class. -/
def trimEndL (s : Str) : Str := (s.reverse.dropWhile isWsC).reverse

namespace MarkdownGenerator

/-- JavaScript String.split with a line-feed separator. -/
def splitNlGo (acc : Str) : Str → List Str
  | [] => [acc.reverse]
  | c :: rest =>
    if c == '\n' then acc.reverse :: splitNlGo [] rest
    else splitNlGo (c :: acc) rest

def splitNl (s : Str) : List Str := splitNlGo [] s

/-- Split a slash-separated path or pattern into segments (a trailing
slash yields a trailing empty segment). -/
def splitSlashGo (acc : Str) : Str → List Str
  | [] => [acc.reverse]
  | c :: rest =>
    if c == '/' then acc.reverse :: splitSlashGo [] rest
    else splitSlashGo (c :: acc) rest

def splitSlash (s : Str) : List Str := splitSlashGo [] s

/-- Within-segment glob match: a star matches any run of characters,
all other characters match literally (case-sensitively).  `fuel` makes
the recursion structural; `segMatch` supplies enough of it. -/
def segMatchF : Nat → Str → Str → Bool
  | 0, p, s => p.isEmpty && s.isEmpty
  | f + 1, p, s =>
    match p, s with
    | [], [] => true
    | '*' :: ps, [] => segMatchF f ps []
    | _ :: _, [] => false
    | [], _ :: _ => false
    | '*' :: ps, c :: cs => segMatchF f ps (c :: cs) || segMatchF f ('*' :: ps) cs
    | pc :: ps, c :: cs => pc == c && segMatchF f ps cs

def segMatch (p s : Str) : Bool := segMatchF (p.length + s.length + 1) p s

/-- Segment-level glob match.  A double-star pattern segment matches
zero or more path segments; a trailing empty pattern segment (from a
trailing slash) matches the named directory together with everything
beneath it, so it requires at least one further path segment. -/
def segsMatchF : Nat → List Str → List Str → Bool
  | 0, ps, ss => ps.isEmpty && ss.isEmpty
  | f + 1, ps, ss =>
    match ps, ss with
    | [], [] => true
    | [[]], _ :: _ => true
    | [], _ :: _ => false
    | p :: ps', ss =>
      if p = "**".toList then
        segsMatchF f ps' ss ||
        (match ss with
         | [] => false
         | _ :: ss' => segsMatchF f (p :: ps') ss')
      else
        match ss with
        | [] => false
        | s :: ss' => segMatch p s && segsMatchF f ps' ss'

/-- Modelled from the spec: `micromatch.isMatch` with the dot option is
an external library dependency, not code of this repository; its glob
semantics are taken from the specification's section 4.3 — patterns are
evaluated over slash-separated segments, a double-star matches any
number of directory segments, a star matches within one segment, a
trailing slash on a pattern matches the named directory and everything
beneath it, matching is case-sensitive, and dotfile segments receive no
special treatment (the dot option).  Brace alternation is not needed by
any pattern considered here and is not modelled. -/
def micromatchIsMatch (file pat : Str) : Bool :=
  let ps := splitSlash pat
  let ss := splitSlash file
  segsMatchF (ps.length + ss.length + 1) ps ss

/-- ASCII lower-casing as performed by toLowerCase on the characters
appearing in extensions. -/
def lowAscii (c : Char) : Char :=
  if 'A' ≤ c && c ≤ 'Z' then Char.ofNat (c.toNat + 32) else c

/-- path.extname composed with toLowerCase: the substring of the
basename from its last dot, empty when the basename has no dot or only
a leading one. -/
def extnameLower (file : Str) : Str :=
  let base := (file.reverse.takeWhile (· != '/')).reverse
  match lastIdxWhere (· == '.') base with
  | none => []
  | some 0 => []
  | some k => (base.drop k).map lowAscii

/-- The per-file exclusion test inside getTrackedFiles: lower-cased
extension in the denylist, or some exclusion pattern matches. -/
def isExcluded (exts : List Str) (pats : List Str) (file : Str) : Bool :=
  exts.contains (extnameLower file) ||
  pats.any (fun p => micromatchIsMatch file p)

/-- MarkdownGenerator.getTrackedFiles with the external collaborators
made explicit: the git listing arrives as an Except value (execCommand
trims the raw output; a thrown error is recovered to the empty list),
and the exclusion state is passed in. -/
def getTrackedFilesModel (exts pats : List Str) (gitOut : Except Unit Str) :
    List Str :=
  match gitOut with
  | .error _ => []
  | .ok out =>
    let trackedFiles := (splitNl (trimL out)).filter (fun f => !(trimL f).isEmpty)
    trackedFiles.filter (fun file => !isExcluded exts pats file)

/-- One output section of generateMarkdown: heading, tilde fence, the
trimmed content, closing fence; files whose content trims to nothing
produce no section. -/
def sectionFor (file content : Str) : Str :=
  if (trimL content).isEmpty then []
  else
    "## ".toList ++ file ++ "\n~~~\n".toList ++ trimL content ++
      "\n~~~\n\n".toList

/-- MarkdownGenerator.generateMarkdown over the surviving files, each
paired with its readFileContent result. -/
def generateMarkdownModel (files : List (Str × Str)) : Str :=
  files.foldl (fun acc fc => acc ++ sectionFor fc.1 fc.2)
    ("# Project Files\n\n".toList)

/-- The document composed by createMarkdownDocument: the generated code
markdown, a separator, and the todo content. -/
def composeDocument (files : List (Str × Str)) (todos : Str) : Str :=
  generateMarkdownModel files ++ "\n---\n\n".toList ++ todos ++ "\n".toList

/-- Pattern lines of one ignore file: split on line feeds, trim each
line, keep non-blank lines that are not hash comments. -/
def parseIgnoreContent (content : Str) : List Str :=
  ((splitNl content).map trimL).filter
    (fun l => !l.isEmpty && !startsWithL ("#".toList) l)

/-- The rewrite loadNestedIgnoreFiles applies to each pattern: a pattern
that starts with neither a slash nor a double-star is prefixed with the
ignore file's directory (relative to the project root, slash-joined,
the behaviour of path.join on these inputs); anchored patterns pass
through unchanged. -/
def rewriteIgnorePattern (dir pat : Str) : Str :=
  if !startsWithL ("/".toList) pat && !startsWithL ("**".toList) pat then
    (if dir.isEmpty then pat else dir ++ "/".toList ++ pat)
  else pat

/-- All resolved patterns contributed by one ignore file. -/
def processIgnoreFile (dir content : Str) : List Str :=
  (parseIgnoreContent content).map (rewriteIgnorePattern dir)

/-- First-seen-order deduplication, the spread of a Set constructed from
the array. -/
def dedupeGo [BEq α] (seen : List α) : List α → List α
  | [] => []
  | a :: rest =>
    if seen.contains a then dedupeGo seen rest
    else a :: dedupeGo (a :: seen) rest

def dedupe [BEq α] (l : List α) : List α := dedupeGo [] l

/-- The mutable generator state relevant to file selection: the pattern
denylist and the one-time-initialization flag. -/
structure GenState where
  fileExclusions : List Str
  inited : Bool

/-- loadNestedIgnoreFiles as a pure function of the discovered ignore
files (directory relative to the root, raw content), in discovery
order: append every resolved pattern, then deduplicate. -/
def loadNestedIgnoreFilesM (ignoreFiles : List (Str × Str)) (st : GenState) :
    GenState :=
  let newPats := ignoreFiles.foldl (fun acc df => acc ++ processIgnoreFile df.1 df.2) []
  { st with fileExclusions := dedupe (st.fileExclusions ++ newPats) }

/-- MarkdownGenerator.initialize: the guarded one-time loading of the
ignore files (updateGitignore touches only the filesystem, not the
generator state, and is omitted). -/
def initOnce (ignoreFiles : List (Str × Str)) (st : GenState) : GenState :=
  if st.inited then st
  else { loadNestedIgnoreFilesM ignoreFiles st with inited := true }

/-- getTrackedFiles as a state transformer: initialize first, then
filter the git listing against the resulting state. -/
def getTrackedFilesSt (ignoreFiles : List (Str × Str)) (exts : List Str)
    (gitOut : Except Unit Str) (st : GenState) : GenState × List Str :=
  let st' := initOnce ignoreFiles st
  (st', getTrackedFilesModel exts st'.fileExclusions gitOut)

/-- createMarkdownDocument with the filesystem writes abstracted away:
the composed document together with the success flag of the normal
path (write failures are outside the model). -/
def createMarkdownDocumentModel (exts pats : List Str)
    (gitOut : Except Unit Str) (readF : Str → Str) (todos : Str) :
    Bool × Str :=
  let files := (getTrackedFilesModel exts pats gitOut).map
    (fun f => (f, trimEndL (TokenCleaner.cleanAndRedact (readF f))))
  (true, composeDocument files todos)

end MarkdownGenerator

/-! ### Scanner lemmas -/

theorem scanF_fuel (m : Matcher) :
    ∀ (f g : Nat) (rev rest : Str), rest.length ≤ f → rest.length ≤ g →
      scanF m f rev rest = scanF m g rev rest := by
  intro f
  induction f with
  | zero =>
    intro g rev rest hf _
    have h0 : rest = [] := List.eq_nil_of_length_eq_zero (Nat.le_zero.mp hf)
    subst h0
    cases g <;> rfl
  | succ f ih =>
    intro g rev rest hf hg
    cases rest with
    | nil => cases g <;> rfl
    | cons c t =>
      cases g with
      | zero => simp at hg
      | succ g' =>
        cases hm : m rev (c :: t) with
        | none =>
          simp only [scanF, hm]
          simp only [List.length_cons] at hf hg
          have h1 : t.length ≤ f := Nat.le_of_succ_le_succ hf
          have h2 : t.length ≤ g' := Nat.le_of_succ_le_succ hg
          rw [ih g' (c :: rev) t h1 h2]
        | some p =>
          obtain ⟨n, repl⟩ := p
          simp only [scanF, hm]
          simp only [List.length_cons] at hf hg
          have h1 : (t.drop (n - 1)).length ≤ f := by
            simp only [List.length_drop]
            omega
          have h2 : (t.drop (n - 1)).length ≤ g' := by
            simp only [List.length_drop]
            omega
          rw [ih g' (((c :: t).take n).reverse ++ rev) (t.drop (n - 1)) h1 h2]

theorem applyRule_eq_runRule (m : Matcher) (s : Str) :
    applyRule m s = runRule m [] s := rfl

theorem runRule_nil (m : Matcher) (rev : Str) : runRule m rev [] = [] := rfl

theorem runRule_skip (m : Matcher) (rev : Str) (c : Char) (rest : Str)
    (h : m rev (c :: rest) = none) :
    runRule m rev (c :: rest) = c :: runRule m (c :: rev) rest := by
  unfold runRule
  simp only [List.length_cons, scanF, h]

theorem runRule_match (m : Matcher) (rev : Str) (c : Char) (rest : Str)
    (n : Nat) (repl : Str) (h : m rev (c :: rest) = some (n, repl)) :
    runRule m rev (c :: rest) =
      repl ++ runRule m (((c :: rest).take n).reverse ++ rev) (rest.drop (n - 1)) := by
  unfold runRule
  simp only [List.length_cons, scanF, h]
  congr 1
  exact scanF_fuel m rest.length (rest.drop (n - 1)).length _ _
    (by simp only [List.length_drop]; omega) (le_refl _)

/-- A rule that can never match under an invariant `P` preserved by
single-character steps leaves the buffer unchanged. -/
theorem runRule_id (m : Matcher) (P : Str → Str → Prop)
    (hnone : ∀ rev rest, P rev rest → m rev rest = none)
    (hstep : ∀ rev c rest, P rev (c :: rest) → P (c :: rev) rest) :
    ∀ (rest rev : Str), P rev rest → runRule m rev rest = rest := by
  intro rest
  induction rest with
  | nil => intro rev _; rfl
  | cons c t ih =>
    intro rev hP
    rw [runRule_skip m rev c t (hnone rev (c :: t) hP)]
    rw [ih (c :: rev) (hstep rev c t hP)]

/-- Scanning steps over a region where the rule never matches. -/
theorem runRule_skipAll (m : Matcher) :
    ∀ (pre rev rest : Str),
      (∀ i, i < pre.length →
        m ((pre.take i).reverse ++ rev) (pre.drop i ++ rest) = none) →
      runRule m rev (pre ++ rest) = pre ++ runRule m (pre.reverse ++ rev) rest := by
  intro pre
  induction pre with
  | nil => intro rev rest _; simp
  | cons c p ih =>
    intro rev rest h
    have h0 : m rev (c :: (p ++ rest)) = none := by
      have h' := h 0 (by simp)
      simpa using h'
    have hrec := ih (c :: rev) rest (fun i hi => by
      have h' := h (i + 1) (by simpa using Nat.succ_lt_succ hi)
      simpa [List.take_succ_cons, List.drop_succ_cons, List.append_assoc] using h')
    rw [List.cons_append, runRule_skip m rev c (p ++ rest) h0, hrec]
    simp [List.append_assoc]

/-! ### Line-decomposition lemmas -/

theorem linesOf_noTerm (a : Str) (h : ∀ c ∈ a, isTermC c = false) :
    linesOf a = [a] := by
  induction a with
  | nil => rfl
  | cons c t ih =>
    have hc : isTermC c = false := h c (List.mem_cons_self c t)
    have ht := ih (fun d hd => h d (List.mem_cons_of_mem c hd))
    simp [linesOf, hc, ht]

theorem linesOf_append_term (a : Str) (ha : ∀ c ∈ a, isTermC c = false)
    (t : Char) (ht : isTermC t = true) (b : Str) :
    linesOf (a ++ t :: b) = a :: linesOf b := by
  induction a with
  | nil => simp [linesOf, ht]
  | cons c a' ih =>
    have hc : isTermC c = false := ha c (List.mem_cons_self c a')
    have ih' := ih (fun d hd => ha d (List.mem_cons_of_mem c hd))
    simp [linesOf, hc, ih']

/-- Every line produced by the marker-line removal map is marker-free:
a removed line becomes empty and a kept line had no marker. -/
theorem mapLinesGo_marker_free :
    ∀ (t acc : Str), (∀ c ∈ acc, isTermC c = false) →
      ∀ line ∈ linesOf (TokenCleaner.mapLinesGo
          (fun l => if TokenCleaner.lineHasMarker l then [] else l) acc t),
        TokenCleaner.lineHasMarker line = false := by
  intro t
  induction t with
  | nil =>
    intro acc hacc line hline
    simp only [TokenCleaner.mapLinesGo] at hline
    by_cases hm : TokenCleaner.lineHasMarker acc.reverse = true
    · rw [if_pos hm] at hline
      simp only [linesOf, List.mem_singleton] at hline
      subst hline
      rfl
    · rw [if_neg hm] at hline
      rw [linesOf_noTerm acc.reverse
        (fun d hd => hacc d (List.mem_reverse.mp hd))] at hline
      simp only [List.mem_singleton] at hline
      subst hline
      exact Bool.eq_false_iff.mpr hm
  | cons c rest ih =>
    intro acc hacc line hline
    simp only [TokenCleaner.mapLinesGo] at hline
    by_cases hc : isTermC c = true
    · rw [if_pos hc] at hline
      by_cases hm : TokenCleaner.lineHasMarker acc.reverse = true
      · rw [if_pos hm, List.nil_append] at hline
        simp only [linesOf, hc, if_true, List.mem_cons] at hline
        rcases hline with h1 | h2
        · subst h1; rfl
        · exact ih [] (by intro d hd; simp at hd) line h2
      · rw [if_neg hm] at hline
        rw [linesOf_append_term acc.reverse
          (fun d hd => hacc d (List.mem_reverse.mp hd)) c hc _] at hline
        rcases List.mem_cons.mp hline with h1 | h2
        · subst h1; exact Bool.eq_false_iff.mpr hm
        · exact ih [] (by intro d hd; simp at hd) line h2
    · rw [if_neg hc] at hline
      refine ih (c :: acc) ?_ line hline
      intro d hd
      rcases List.mem_cons.mp hd with rfl | h
      · exact Bool.eq_false_iff.mpr hc
      · exact hacc d h

/-- No line of the marker-line removal output contains a marker. -/
theorem removeRedactedLines_marker_free (t : Str) :
    ∀ line ∈ linesOf (TokenCleaner.removeRedactedLines t),
      TokenCleaner.lineHasMarker line = false := by
  intro line hline
  exact mapLinesGo_marker_free t [] (by intro d hd; simp at hd) line hline

/-! ### Character-class facts over the hexadecimal alphabet -/

theorem hexChars_isHex : ∀ c ∈ hexChars, isHexC c = true := by decide

theorem hexChars_notQuote : ∀ c ∈ hexChars, isQuoteC c = false := by decide

theorem hexChars_notWs : ∀ c ∈ hexChars, isWsC c = false := by decide

theorem hexChars_ci_r : ∀ c ∈ hexChars, ('r'.toLower == c.toLower) = false := by
  decide

/-! ### No-match identity of the lookbehind-guarded secret rules -/

theorem mem_of_mem_dropWhile {p : Char → Bool} {l : Str} {c : Char}
    (h : c ∈ l.dropWhile p) : c ∈ l := by
  induction l with
  | nil => simp at h
  | cons a t ih =>
    rw [List.dropWhile_cons] at h
    by_cases hp : p a = true
    · rw [if_pos hp] at h
      exact List.mem_cons_of_mem a (ih h)
    · rw [if_neg hp] at h
      exact h

theorem s1Behind_false {rev : Str} (h : ∀ c ∈ rev, isQuoteC c = false) :
    s1Behind rev = false := by
  cases rev with
  | nil => rfl
  | cons q r => simp [s1Behind, h q (List.mem_cons_self q r)]

theorem s2Behind_false {rev : Str} (h : ∀ c ∈ rev, isQuoteC c = false) :
    s2Behind rev = false := by
  cases rev with
  | nil => rfl
  | cons q r => simp [s2Behind, h q (List.mem_cons_self q r)]

theorem s3Behind_false {rev : Str} (h : ∀ c ∈ rev, isQuoteC c = false) :
    s3Behind rev = false := by
  cases rev with
  | nil => rfl
  | cons q r => simp [s3Behind, h q (List.mem_cons_self q r)]

theorem s1_runRule_id (rest rev : Str) (h : NoQuote rev rest) :
    runRule s1 rev rest = rest := by
  refine runRule_id s1 NoQuote ?_ ?_ rest rev h
  · intro rev' rest' hP
    have hb : s1Behind rev' = false :=
      s1Behind_false (fun c hc => hP c (List.mem_append_left _ hc))
    simp [s1, hb]
  · intro rev' c rest' hP d hd
    apply hP
    simp only [List.mem_append, List.mem_cons] at hd ⊢
    tauto

theorem s2_runRule_id (rest rev : Str) (h : NoQuote rev rest) :
    runRule s2 rev rest = rest := by
  refine runRule_id s2 NoQuote ?_ ?_ rest rev h
  · intro rev' rest' hP
    have hb : s2Behind rev' = false :=
      s2Behind_false (fun c hc => hP c (List.mem_append_left _ hc))
    simp [s2, hb]
  · intro rev' c rest' hP d hd
    apply hP
    simp only [List.mem_append, List.mem_cons] at hd ⊢
    tauto

theorem s3_runRule_id (rest rev : Str) (h : NoQuote rev rest) :
    runRule s3 rev rest = rest := by
  refine runRule_id s3 NoQuote ?_ ?_ rest rev h
  · intro rev' rest' hP
    have hb : s3Behind rev' = false :=
      s3Behind_false (fun c hc => hP c (List.mem_append_left _ hc))
    simp [s3, hb]
  · intro rev' c rest' hP d hd
    apply hP
    simp only [List.mem_append, List.mem_cons] at hd ⊢
    tauto

theorem startsWithCI_head_false {p : Char} {ps : Str} {c : Char} {cs : Str}
    (h : (p.toLower == c.toLower) = false) :
    startsWithCI (p :: ps) (c :: cs) = false := by
  simp only [startsWithCI, h, Bool.false_and]

theorem startsWithCI_reraeb_false {l : Str}
    (h : ∀ c ∈ l, ('r'.toLower == c.toLower) = false) :
    startsWithCI ("reraeb".toList) l = false := by
  cases l with
  | nil => rfl
  | cons c cs =>
    show startsWithCI ('r' :: ("eraeb".toList)) (c :: cs) = false
    exact startsWithCI_head_false (h c (List.mem_cons_self c cs))

theorem s4Behind_false {rev : Str}
    (h : ∀ c ∈ rev, ('r'.toLower == c.toLower) = false) :
    s4Behind rev = false := by
  have hci : startsWithCI ("reraeb".toList)
      (rev.drop (rev.takeWhile isWsC).length) = false := by
    apply startsWithCI_reraeb_false
    intro c hc
    exact h c (List.drop_sublist _ _ |>.mem hc)
  show (!(rev.takeWhile isWsC).isEmpty &&
    startsWithCI ("reraeb".toList) (rev.drop (rev.takeWhile isWsC).length)) = false
  rw [hci, Bool.and_false]

theorem s5Behind_false {rev : Str}
    (h : ∀ c ∈ rev, ('r'.toLower == c.toLower) = false) :
    s5Behind rev = false := by
  have hci : startsWithCI ("reraeb".toList)
      (rev.drop (rev.takeWhile isWsC).length) = false := by
    apply startsWithCI_reraeb_false
    intro c hc
    exact h c (List.drop_sublist _ _ |>.mem hc)
  show (!(rev.takeWhile isWsC).isEmpty &&
    (startsWithCI ("reraeb".toList) (rev.drop (rev.takeWhile isWsC).length) &&
      (match ((rev.drop (rev.takeWhile isWsC).length).drop 6).dropWhile isWsC with
       | ':' :: r3 => startsWithCI ("noitazirohtua".toList) r3
       | _ => false))) = false
  rw [hci, Bool.false_and, Bool.and_false]

theorem s4_runRule_id (rest rev : Str) (h : NoRLike rev rest) :
    runRule s4 rev rest = rest := by
  refine runRule_id s4 NoRLike ?_ ?_ rest rev h
  · intro rev' rest' hP
    have hb : s4Behind rev' = false :=
      s4Behind_false (fun c hc => hP c (List.mem_append_left _ hc))
    simp [s4, hb]
  · intro rev' c rest' hP d hd
    apply hP
    simp only [List.mem_append, List.mem_cons] at hd ⊢
    tauto

theorem s5_runRule_id (rest rev : Str) (h : NoRLike rev rest) :
    runRule s5 rev rest = rest := by
  refine runRule_id s5 NoRLike ?_ ?_ rest rev h
  · intro rev' rest' hP
    have hb : s5Behind rev' = false :=
      s5Behind_false (fun c hc => hP c (List.mem_append_left _ hc))
    simp [s5, hb]
  · intro rev' c rest' hP d hd
    apply hP
    simp only [List.mem_append, List.mem_cons] at hd ⊢
    tauto

/-! ### Window lemmas for the hash and base64 rules -/

theorem all_take_false {l : Str} {n : Nat} {p : Char → Bool} {c : Char}
    (hc : c ∈ l.take n) (hp : p c = false) : (l.take n).all p = false := by
  cases hall : (l.take n).all p
  · rfl
  · exfalso
    have hpc := List.all_eq_true.mp hall c hc
    rw [hp] at hpc
    exact Bool.false_ne_true hpc

theorem hexAlt_false_of_mem {rest : Str} {n : Nat} {c : Char}
    (hc : c ∈ rest.take n) (hp : isHexC c = false) : hexAlt rest n = false := by
  unfold hexAlt
  rw [all_take_false hc hp, Bool.false_and]

theorem b64Alt_false_of_mem {rest : Str} {n : Nat} {c : Char}
    (hc : c ∈ rest.take n) (hp : isB64C c = false) : b64Alt rest n = false := by
  unfold b64Alt
  rw [all_take_false hc hp]
  simp

theorem s6_none_of_sp {rev rest : Str} (h40 : ' ' ∈ rest.take 40)
    (h64 : ' ' ∈ rest.take 64) : s6 rev rest = none := by
  have a40 : hexAlt rest 40 = false := hexAlt_false_of_mem h40 (by decide)
  have a64 : hexAlt rest 64 = false := hexAlt_false_of_mem h64 (by decide)
  simp [s6, a40, a64]

theorem s7_none_of_sp {rev rest : Str} (h40 : ' ' ∈ rest.take 40)
    (h64 : ' ' ∈ rest.take 64) : s7 rev rest = none := by
  have a40 : b64Alt rest 40 = false := b64Alt_false_of_mem h40 (by decide)
  have a64 : b64Alt rest 64 = false := b64Alt_false_of_mem h64 (by decide)
  simp [s7, a40, a64]

theorem mem_take_append_left {A B : Str} {n : Nat} (h : A.length ≤ n) {c : Char}
    (hc : c ∈ A) : c ∈ (A ++ B).take n := by
  rw [List.take_append_eq_append_take]
  apply List.mem_append_left
  rw [List.take_of_length_le h]
  exact hc

theorem sp_mem_take_end {h' : Str} (n : Nat) (hn : h'.length < n) :
    ' ' ∈ (h' ++ (" end".toList)).take n := by
  rw [List.take_append_eq_append_take, List.take_of_length_le (le_of_lt hn)]
  apply List.mem_append_right
  have h1 : n - h'.length = (n - h'.length - 1) + 1 := by omega
  rw [h1]
  show ' ' ∈ (' ' :: ("end".toList)).take _
  rw [List.take_succ_cons]
  exact List.mem_cons_self _ _

theorem s6_runRule_id39 (rest rev : Str) (h : HexWindow39 rest) :
    runRule s6 rev rest = rest := by
  refine runRule_id s6 (fun _ r => HexWindow39 r) ?_ ?_ rest rev h
  · intro rev' rest' hP
    rcases hP with ⟨h', _, hlen, rfl⟩ | rfl | rfl | rfl | rfl
    · exact s6_none_of_sp (sp_mem_take_end 40 (by omega)) (sp_mem_take_end 64 (by omega))
    · exact (by decide : s6 [] ("end".toList) = none)
    · exact (by decide : s6 [] ("nd".toList) = none)
    · exact (by decide : s6 [] ("d".toList) = none)
    · exact (by decide : s6 [] ([] : Str) = none)
  · intro rev' c rest' hP
    rcases hP with ⟨h', hmem, hlen, heq⟩ | heq | heq | heq | heq
    · cases h' with
      | nil =>
        simp only [List.nil_append] at heq
        have h2 : rest' = ("end".toList) := by
          have : (" end".toList) = ' ' :: ("end".toList) := rfl
          rw [this] at heq
          exact (List.cons.injEq _ _ _ _ ▸ heq).2
        right; left; exact h2
      | cons d h'' =>
        rw [List.cons_append] at heq
        have h2 : rest' = h'' ++ (" end".toList) :=
          (List.cons.injEq _ _ _ _ ▸ heq).2
        left
        refine ⟨h'', fun x hx => hmem x (List.mem_cons_of_mem d hx), ?_, h2⟩
        simp only [List.length_cons] at hlen
        omega
    · have : ("end".toList) = 'e' :: ("nd".toList) := rfl
      rw [this] at heq
      right; right; left
      exact (List.cons.injEq _ _ _ _ ▸ heq).2
    · have : ("nd".toList) = 'n' :: ("d".toList) := rfl
      rw [this] at heq
      right; right; right; left
      exact (List.cons.injEq _ _ _ _ ▸ heq).2
    · have : ("d".toList) = 'd' :: ([] : Str) := rfl
      rw [this] at heq
      right; right; right; right
      exact (List.cons.injEq _ _ _ _ ▸ heq).2
    · exact absurd heq (by simp)

theorem s7_runRule_id39 (rest rev : Str) (h : HexWindow39 rest) :
    runRule s7 rev rest = rest := by
  refine runRule_id s7 (fun _ r => HexWindow39 r) ?_ ?_ rest rev h
  · intro rev' rest' hP
    rcases hP with ⟨h', _, hlen, rfl⟩ | rfl | rfl | rfl | rfl
    · exact s7_none_of_sp (sp_mem_take_end 40 (by omega)) (sp_mem_take_end 64 (by omega))
    · exact (by decide : s7 [] ("end".toList) = none)
    · exact (by decide : s7 [] ("nd".toList) = none)
    · exact (by decide : s7 [] ("d".toList) = none)
    · exact (by decide : s7 [] ([] : Str) = none)
  · intro rev' c rest' hP
    rcases hP with ⟨h', hmem, hlen, heq⟩ | heq | heq | heq | heq
    · cases h' with
      | nil =>
        simp only [List.nil_append] at heq
        have h2 : rest' = ("end".toList) := by
          have : (" end".toList) = ' ' :: ("end".toList) := rfl
          rw [this] at heq
          exact (List.cons.injEq _ _ _ _ ▸ heq).2
        right; left; exact h2
      | cons d h'' =>
        rw [List.cons_append] at heq
        have h2 : rest' = h'' ++ (" end".toList) :=
          (List.cons.injEq _ _ _ _ ▸ heq).2
        left
        refine ⟨h'', fun x hx => hmem x (List.mem_cons_of_mem d hx), ?_, h2⟩
        simp only [List.length_cons] at hlen
        omega
    · have : ("end".toList) = 'e' :: ("nd".toList) := rfl
      rw [this] at heq
      right; right; left
      exact (List.cons.injEq _ _ _ _ ▸ heq).2
    · have : ("nd".toList) = 'n' :: ("d".toList) := rfl
      rw [this] at heq
      right; right; right; left
      exact (List.cons.injEq _ _ _ _ ▸ heq).2
    · have : ("d".toList) = 'd' :: ([] : Str) := rfl
      rw [this] at heq
      right; right; right; right
      exact (List.cons.injEq _ _ _ _ ▸ heq).2
    · exact absurd heq (by simp)

/-! ### redactSecrets over the neutral hexadecimal contexts of claim C7 -/

theorem s6_skip_token (X : Str) (rev : Str) :
    ∀ i, i < ("token ".toList).length →
      s6 ((("token ".toList).take i).reverse ++ rev)
        (("token ".toList).drop i ++ X) = none := by
  intro i hi
  have hi' : i < 6 := by simpa using hi
  interval_cases i <;>
    exact s6_none_of_sp
      (mem_take_append_left (by decide) (by decide))
      (mem_take_append_left (by decide) (by decide))

theorem s7_skip_token (X : Str) (rev : Str) :
    ∀ i, i < ("token ".toList).length →
      s7 ((("token ".toList).take i).reverse ++ rev)
        (("token ".toList).drop i ++ X) = none := by
  intro i hi
  have hi' : i < 6 := by simpa using hi
  interval_cases i <;>
    exact s7_none_of_sp
      (mem_take_append_left (by decide) (by decide))
      (mem_take_append_left (by decide) (by decide))

theorem s6_run_hex40 (h : Str) (hmem : ∀ c ∈ h, c ∈ hexChars)
    (hlen : h.length = 40) :
    runRule s6 [] (("token ".toList) ++ (h ++ (" end".toList))) =
      ("token ".toList) ++ ("[REDACTED_HASH]".toList ++ (" end".toList)) := by
  rw [runRule_skipAll s6 ("token ".toList) [] (h ++ (" end".toList))
    (s6_skip_token (h ++ (" end".toList)) [])]
  congr 1
  cases h with
  | nil => simp at hlen
  | cons a t =>
    have ht39 : t.length = 39 := by
      simp only [List.length_cons] at hlen
      omega
    have hmatch : s6 (("token ".toList).reverse ++ [])
        ((a :: t) ++ (" end".toList)) = some (40, "[REDACTED_HASH]".toList) := by
      have htake : ((a :: t) ++ (" end".toList)).take 40 = a :: t := by
        have h40 : (40 : Nat) = (a :: t).length := by
          simp only [List.length_cons]
          omega
        rw [h40, List.take_left]
      have halt : hexAlt ((a :: t) ++ (" end".toList)) 40 = true := by
        unfold hexAlt
        rw [htake]
        have hall : (a :: t).all isHexC = true :=
          List.all_eq_true.mpr (fun x hx => hexChars_isHex x (hmem x hx))
        rw [hall]
        simp [List.length_cons, ht39]
      show (if hexAlt ((a :: t) ++ (" end".toList)) 40 = true
            then some (40, "[REDACTED_HASH]".toList)
            else if hexAlt ((a :: t) ++ (" end".toList)) 64 = true
            then some (64, "[REDACTED_HASH]".toList)
            else none) =
          some (40, "[REDACTED_HASH]".toList)
      rw [halt]
      simp
    rw [List.cons_append,
      runRule_match s6 _ a (t ++ (" end".toList)) 40 _ hmatch]
    have hdrop : (t ++ (" end".toList)).drop (40 - 1) = (" end".toList) := by
      have h39 : (40 - 1 : Nat) = t.length := by omega
      rw [h39, List.drop_left]
    rw [hdrop]
    rw [s6_runRule_id39 (" end".toList) _ (Or.inl ⟨[], by simp, by simp, rfl⟩)]

theorem noQuote_context (h : Str) (hmem : ∀ c ∈ h, c ∈ hexChars) :
    NoQuote [] (("token ".toList) ++ (h ++ (" end".toList))) := by
  intro c hc
  simp only [List.nil_append, List.mem_append] at hc
  rcases hc with hc | hc | hc
  · exact (by decide : ∀ c ∈ ("token ".toList), isQuoteC c = false) c hc
  · exact hexChars_notQuote c (hmem c hc)
  · exact (by decide : ∀ c ∈ (" end".toList), isQuoteC c = false) c hc

theorem noRLike_context (h : Str) (hmem : ∀ c ∈ h, c ∈ hexChars) :
    NoRLike [] (("token ".toList) ++ (h ++ (" end".toList))) := by
  intro c hc
  simp only [List.nil_append, List.mem_append] at hc
  rcases hc with hc | hc | hc
  · exact (by decide :
      ∀ c ∈ ("token ".toList), ('r'.toLower == c.toLower) = false) c hc
  · exact hexChars_ci_r c (hmem c hc)
  · exact (by decide :
      ∀ c ∈ (" end".toList), ('r'.toLower == c.toLower) = false) c hc

theorem redactSecrets_eq (s : Str) :
    TokenCleaner.redactSecrets s =
      applyRule s7 (applyRule s6 (applyRule s5 (applyRule s4 (applyRule s3
        (applyRule s2 (applyRule s1 s)))))) := by
  unfold TokenCleaner.redactSecrets TokenCleaner.secretPatterns
  simp only [List.foldl_cons, List.foldl_nil]

theorem redactSecrets_hex40 (h : Str) (hmem : ∀ c ∈ h, c ∈ hexChars)
    (hlen : h.length = 40) :
    TokenCleaner.redactSecrets (("token ".toList) ++ (h ++ (" end".toList))) =
      ("token [REDACTED_HASH] end".toList) := by
  have hq := noQuote_context h hmem
  have hr := noRLike_context h hmem
  rw [redactSecrets_eq]
  rw [applyRule_eq_runRule s1, s1_runRule_id _ _ hq]
  rw [applyRule_eq_runRule s2, s2_runRule_id _ _ hq]
  rw [applyRule_eq_runRule s3, s3_runRule_id _ _ hq]
  rw [applyRule_eq_runRule s4, s4_runRule_id _ _ hr]
  rw [applyRule_eq_runRule s5, s5_runRule_id _ _ hr]
  rw [applyRule_eq_runRule s6, s6_run_hex40 h hmem hlen]
  have hconc : ("token ".toList) ++ ("[REDACTED_HASH]".toList ++ (" end".toList)) =
      ("token [REDACTED_HASH] end".toList) := by decide
  rw [hconc]
  decide

theorem redactSecrets_hex39 (h : Str) (hmem : ∀ c ∈ h, c ∈ hexChars)
    (hlen : h.length = 39) :
    TokenCleaner.redactSecrets (("token ".toList) ++ (h ++ (" end".toList))) =
      (("token ".toList) ++ (h ++ (" end".toList))) := by
  have hq := noQuote_context h hmem
  have hr := noRLike_context h hmem
  have hwin : HexWindow39 (h ++ (" end".toList)) :=
    Or.inl ⟨h, hmem, by omega, rfl⟩
  rw [redactSecrets_eq]
  rw [applyRule_eq_runRule s1, s1_runRule_id _ _ hq]
  rw [applyRule_eq_runRule s2, s2_runRule_id _ _ hq]
  rw [applyRule_eq_runRule s3, s3_runRule_id _ _ hq]
  rw [applyRule_eq_runRule s4, s4_runRule_id _ _ hr]
  rw [applyRule_eq_runRule s5, s5_runRule_id _ _ hr]
  rw [applyRule_eq_runRule s6,
    runRule_skipAll s6 ("token ".toList) [] (h ++ (" end".toList))
      (s6_skip_token (h ++ (" end".toList)) []),
    s6_runRule_id39 _ _ hwin]
  rw [applyRule_eq_runRule s7,
    runRule_skipAll s7 ("token ".toList) [] (h ++ (" end".toList))
      (s7_skip_token (h ++ (" end".toList)) []),
    s7_runRule_id39 _ _ hwin]

/-! ### redactSecrets over the quoted password assignment of claim C5 -/

theorem takeWhile_all_append {p : Char → Bool} {A B : Str}
    (h : ∀ a ∈ A, p a = true) :
    (A ++ B).takeWhile p = A ++ B.takeWhile p := by
  induction A with
  | nil => simp
  | cons a t ih =>
    have ha := h a (List.mem_cons_self a t)
    have iht := ih (fun x hx => h x (List.mem_cons_of_mem a hx))
    simp only [List.cons_append, List.takeWhile_cons, ha, if_true, iht]

theorem s1_none_of_behind {rev rest : Str} (h : s1Behind rev = false) :
    s1 rev rest = none := by
  simp [s1, h]

theorem s1Behind_cons_false {q : Char} {r : Str} (h : isQuoteC q = false) :
    s1Behind (q :: r) = false := by
  simp [s1Behind, h]

theorem reverse_append_eq_getLast_cons {X : Str} (hX : X ≠ []) (l : Str) :
    X.reverse ++ l = X.getLast hX :: (X.dropLast.reverse ++ l) := by
  conv_lhs => rw [← List.dropLast_append_getLast hX]
  simp [List.reverse_append]

theorem quotedValueMatch_exact {X : Str} (hne : X ≠ [])
    (hq : ∀ c ∈ X, isQuoteC c = false) :
    quotedValueMatch (X ++ ['\"']) = some (X.length, "[REDACTED]".toList) := by
  cases X with
  | nil => exact absurd rfl hne
  | cons x xs =>
    have hx : isQuoteC x = false := hq x (List.mem_cons_self x xs)
    have hrun : ((x :: xs) ++ ['\"']).takeWhile (fun d => !isQuoteC d) = x :: xs := by
      rw [takeWhile_all_append (by
        intro a ha
        rw [hq a ha]
        rfl)]
      have h2 : (['\"'] : Str).takeWhile (fun d => !isQuoteC d) = [] := by decide
      rw [h2, List.append_nil]
    rw [List.cons_append]
    simp only [quotedValueMatch, hx, Bool.false_eq_true, if_false]
    rw [← List.cons_append, hrun]
    have hdrop : ((x :: xs) ++ ['\"']).drop (x :: xs).length = ['\"'] :=
      List.drop_left _ _
    rw [hdrop]
    rfl

theorem s1_skip_password (X : Str) :
    ∀ i, i < ("\"password\": \"".toList).length →
      s1 ((("\"password\": \"".toList).take i).reverse ++ [])
        (("\"password\": \"".toList).drop i ++ X) = none := by
  intro i hi
  have hi' : i < 13 := by simpa using hi
  interval_cases i <;> exact s1_none_of_behind (by decide)

theorem s1_match_password {X : Str} (hne : X ≠ [])
    (hq : ∀ c ∈ X, isQuoteC c = false) :
    s1 (("\"password\": \"".toList).reverse ++ []) (X ++ ['\"']) =
      some (X.length, "[REDACTED]".toList) := by
  have hb : s1Behind (("\"password\": \"".toList).reverse ++ []) = true := by
    decide
  simp only [s1, hb, if_true]
  exact quotedValueMatch_exact hne hq

theorem redactSecrets_password {X : Str} (hne : X ≠ [])
    (hq : ∀ c ∈ X, isQuoteC c = false) :
    TokenCleaner.redactSecrets
      (("\"password\": \"".toList) ++ X ++ ("\"".toList)) =
      ("\"password\": \"[REDACTED]\"".toList) := by
  rw [redactSecrets_eq, applyRule_eq_runRule s1, List.append_assoc]
  have hpost : ("\"".toList) = ['\"'] := rfl
  rw [hpost]
  rw [runRule_skipAll s1 ("\"password\": \"".toList) [] (X ++ ['\"'])
    (s1_skip_password (X ++ ['\"']))]
  cases X with
  | nil => exact absurd rfl hne
  | cons x xs =>
    have hmatch := s1_match_password (X := x :: xs) (by simp) hq
    rw [List.cons_append] at hmatch
    rw [List.cons_append,
      runRule_match s1 _ x (xs ++ ['\"']) (x :: xs).length _ hmatch]
    have hdrop : (xs ++ ['\"']).drop ((x :: xs).length - 1) = ['\"'] := by
      simp only [List.length_cons, Nat.add_sub_cancel]
      exact List.drop_left _ _
    have htake : (x :: (xs ++ ['\"'])).take ((x :: xs).length) = x :: xs := by
      simp only [List.length_cons, List.take_succ_cons]
      rw [List.take_left]
    rw [hdrop, htake]
    have hrev : (x :: xs).reverse ++ (("\"password\": \"".toList).reverse ++ []) =
        (x :: xs).getLast (by simp) ::
          ((x :: xs).dropLast.reverse ++ (("\"password\": \"".toList).reverse ++ [])) :=
      reverse_append_eq_getLast_cons (by simp) _
    rw [hrev,
      runRule_skip s1 _ '\"' []
        (s1_none_of_behind (s1Behind_cons_false
          (hq _ (List.getLast_mem (by simp))))),
      runRule_nil]
    decide

end Toak

/-! ### Claim theorems -/

open Toak Toak.TokenCleaner Toak.MarkdownGenerator

/-- Claim C1, counterexample: the second phase of cleanAndRedact does
not remove only lines consisting solely of redaction markers — on the
one-line input x [REDACTED] y (which redaction leaves unchanged and
which is not solely markers) the pipeline worded as in the claim keeps
the line while the code erases it, so the two pipelines differ. -/
theorem C1_counterexample :
    cleanAndRedact ("x [REDACTED] y".toList) ≠
      cleanAndRedactClaimC1 ("x [REDACTED] y".toList) := by
  decide

/-- Claim C1 (amended): cleanAndRedact applies its phases in the order
redactSecrets, then removal of every whole line that contains a
redaction marker anywhere on it (not only lines consisting solely of
markers), then the structural clean pass, then the final trim; in
particular, after the removal phase no line containing a marker
remains in the buffer handed to the clean pass. -/
theorem C1_theorem :
    (∀ code : Str, cleanAndRedact code = cleanAndRedactAmended code) ∧
    (∀ code : Str,
      ∀ line ∈ linesOf (removeRedactedLines (redactSecrets code)),
        lineHasMarker line = false) :=
  ⟨fun _ => rfl,
   fun code line hline =>
     removeRedactedLines_marker_free (redactSecrets code) line hline⟩

/-- Witness for claim C1 at a concrete input. -/
theorem C1_witness : lineHasMarker ("const a;".toList) = false :=
  C1_theorem.2 ("const a;".toList) ("const a;".toList) (by decide)

/-- Claim C2, counterexample: the composed document is not the claimed
string — the code emits an extra blank line between the last file
section and the separator (each section ends with two newlines and the
separator adds its own leading newline). -/
theorem C2_counterexample :
    composeDocument
      [(("a.txt".toList), ("hello".toList)),
       (("b.txt".toList), ("world".toList))]
      ("- task".toList) ≠
    ("# Project Files\n\n## a.txt\n~~~\nhello\n~~~\n\n## b.txt\n~~~\nworld\n~~~\n\n---\n\n- task\n".toList) := by
  decide

/-- Claim C2 (amended): for the two surviving files the composed
document is the claimed string except that three newlines, not two,
separate the closing fence of the last section from the separator
line. -/
theorem C2_theorem :
    composeDocument
      [(("a.txt".toList), ("hello".toList)),
       (("b.txt".toList), ("world".toList))]
      ("- task".toList) =
    ("# Project Files\n\n## a.txt\n~~~\nhello\n~~~\n\n## b.txt\n~~~\nworld\n~~~\n\n\n---\n\n- task\n".toList) := by
  decide

/-- Claim C3: with the pattern double-star slash build slash in the
exclusion list, the path-exclusion predicate excludes build/out.js
(a trailing slash matches the directory and everything beneath it) and
does not exclude src/build.js. -/
theorem C3_theorem :
    (∀ pats : List Str, ("**/build/".toList) ∈ pats →
      isExcluded [] pats ("build/out.js".toList) = true) ∧
    isExcluded [] [("**/build/".toList)] ("src/build.js".toList) = false := by
  constructor
  · intro pats hmem
    have hm : micromatchIsMatch ("build/out.js".toList) ("**/build/".toList)
        = true := by decide
    have hany : pats.any (fun p => micromatchIsMatch ("build/out.js".toList) p)
        = true := List.any_eq_true.mpr ⟨_, hmem, hm⟩
    show (([] : List Str).contains (extnameLower ("build/out.js".toList)) ||
      pats.any (fun p => micromatchIsMatch ("build/out.js".toList) p)) = true
    rw [hany, Bool.or_true]
  · decide

/-- Witness for claim C3 at the singleton pattern list. -/
theorem C3_witness :
    isExcluded [] [("**/build/".toList)] ("build/out.js".toList) = true :=
  C3_theorem.1 [("**/build/".toList)] (by decide)

/-- Claim C4: the structural cleanup is not idempotent, contrary to the
specification — on an import line followed by a second line, the import
rule leaves the line terminator behind, the first pass yields a buffer
with a leading newline, and a second pass removes that newline. -/
theorem C4_theorem :
    clean ("import a\nb".toList) = ("\nb".toList) ∧
    clean (clean ("import a\nb".toList)) = ("b".toList) ∧
    clean (clean ("import a\nb".toList)) ≠ clean ("import a\nb".toList) :=
  ⟨by decide, by decide, by decide⟩

/-- Claim C5, counterexample: a plain-colon assignment with an unquoted
key, password colon space quote hunter2 quote, is matched by none of
the secret rules (the quoted-key rule requires quotes around the key
and the assignment rule requires an equals sign), so redactSecrets
leaves the text unchanged and the value is not replaced. -/
theorem C5_counterexample :
    redactSecrets ("password: \"hunter2\"".toList) =
      ("password: \"hunter2\"".toList) := by
  decide

/-- Claim C5 (amended): when the key itself is quoted, for every
nonempty value X containing no quote characters, redactSecrets maps
the text quote password quote colon space quote X quote to the same
text with X replaced by the fixed marker, leaving all surrounding text
byte-identical. -/
theorem C5_theorem (X : Str) (hne : X ≠ [])
    (hq : ∀ c ∈ X, isQuoteC c = false) :
    redactSecrets (("\"password\": \"".toList) ++ X ++ ("\"".toList)) =
      ("\"password\": \"[REDACTED]\"".toList) :=
  redactSecrets_password hne hq

/-- Witness for claim C5 at the concrete value hunter2. -/
theorem C5_witness :
    redactSecrets
      (("\"password\": \"".toList) ++ ("hunter2".toList) ++ ("\"".toList)) =
      ("\"password\": \"[REDACTED]\"".toList) :=
  C5_theorem ("hunter2".toList) (by decide) (by decide)

/-- Claim C6: loading a per-directory ignore file at pkg/sub containing
the unanchored pattern local.json yields exactly the root-relative
pattern pkg/sub/local.json, which excludes pkg/sub/local.json and not
local.json at the project root; patterns already starting with a slash
or a double-star pass through the rewrite unchanged. -/
theorem C6_theorem :
    processIgnoreFile ("pkg/sub".toList) ("local.json".toList) =
      [("pkg/sub/local.json".toList)] ∧
    isExcluded [] (processIgnoreFile ("pkg/sub".toList) ("local.json".toList))
      ("pkg/sub/local.json".toList) = true ∧
    isExcluded [] (processIgnoreFile ("pkg/sub".toList) ("local.json".toList))
      ("local.json".toList) = false ∧
    (∀ dir p : Str,
      (startsWithL ("/".toList) p = true ∨ startsWithL ("**".toList) p = true) →
      rewriteIgnorePattern dir p = p) := by
  refine ⟨by decide, by decide, by decide, ?_⟩
  intro dir p hp
  show (if !startsWithL ("/".toList) p && !startsWithL ("**".toList) p
        then (if dir.isEmpty then p else dir ++ ("/".toList) ++ p)
        else p) = p
  rcases hp with h | h
  · rw [h]
    simp
  · rw [h]
    simp

/-- Witness for claim C6 at an anchored pattern. -/
theorem C6_witness :
    rewriteIgnorePattern ("pkg/sub".toList) ("**/dist".toList) =
      ("**/dist".toList) :=
  C6_theorem.2.2.2 ("pkg/sub".toList) ("**/dist".toList) (Or.inr (by decide))

/-- Claim C7, counterexample: a standalone 40-hexadecimal token
preceded by the word bearer is captured by the earlier bearer rule and
replaced with the plain marker, not the hash marker. -/
theorem C7_counterexample :
    redactSecrets (("bearer ".toList) ++ (List.replicate 40 'a')) =
      ("bearer [REDACTED]".toList) ∧
    ("bearer [REDACTED]".toList) ≠ ("bearer [REDACTED_HASH]".toList) :=
  ⟨by decide, by decide⟩

/-- Claim C7 (amended): in a neutral context where no earlier secret
rule applies (the text token space h space end), redactSecrets replaces
a 40-hexadecimal-character token h with the hash marker and leaves the
surrounding text intact, while a 39-hexadecimal-character token in the
same context is left entirely untouched. -/
theorem C7_theorem (h40 h39 : Str)
    (hm40 : ∀ c ∈ h40, c ∈ hexChars) (hl40 : h40.length = 40)
    (hm39 : ∀ c ∈ h39, c ∈ hexChars) (hl39 : h39.length = 39) :
    redactSecrets (("token ".toList) ++ (h40 ++ (" end".toList))) =
      ("token [REDACTED_HASH] end".toList) ∧
    redactSecrets (("token ".toList) ++ (h39 ++ (" end".toList))) =
      (("token ".toList) ++ (h39 ++ (" end".toList))) :=
  ⟨redactSecrets_hex40 h40 hm40 hl40, redactSecrets_hex39 h39 hm39 hl39⟩

/-- Witness for claim C7 at concrete 40- and 39-character tokens. -/
theorem C7_witness :
    redactSecrets
      (("token ".toList) ++ ((List.replicate 40 'a') ++ (" end".toList))) =
      ("token [REDACTED_HASH] end".toList) ∧
    redactSecrets
      (("token ".toList) ++ ((List.replicate 39 'b') ++ (" end".toList))) =
      (("token ".toList) ++ ((List.replicate 39 'b') ++ (" end".toList))) :=
  C7_theorem (List.replicate 40 'a') (List.replicate 39 'b')
    (by decide) (by decide) (by decide) (by decide)

/-- Claim C8: when the external git listing fails, getTrackedFiles
recovers to the empty file list for every configuration, and the
document-generation run continues, producing a successful result whose
document consists of the header, the separator and the todo content. -/
theorem C8_theorem :
    (∀ (exts pats : List Str) (e : Unit),
      getTrackedFilesModel exts pats (Except.error e) = []) ∧
    (∀ (exts pats : List Str) (e : Unit) (readF : Str → Str) (todos : Str),
      (createMarkdownDocumentModel exts pats (Except.error e) readF todos).1
          = true ∧
      (createMarkdownDocumentModel exts pats (Except.error e) readF todos).2
          = composeDocument [] todos) :=
  ⟨fun _ _ _ => rfl, fun _ _ _ _ _ => ⟨rfl, rfl⟩⟩

/-- Claim C9, counterexample: the structural clean pass can assemble
marker text after the removal phase has run — removing the block
comment from the input left-bracket RED comment ACTED right-bracket
produces the output [REDACTED], a line containing (indeed consisting
of) a marker, so a marker-bearing line can appear in the output. -/
theorem C9_counterexample :
    cleanAndRedact ("[RED/*x*/ACTED]".toList) = ("[REDACTED]".toList) ∧
    lineHasMarker ("[REDACTED]".toList) = true :=
  ⟨by decide, by decide⟩

/-- Claim C9 (amended): the marker-line removal phase of cleanAndRedact
erases, in its entirety, every line that contains a redaction-marker
substring anywhere — including lines carrying other content and lines
whose marker was present verbatim in the original input — so the buffer
it hands to the structural clean pass contains no marker-bearing line;
the subsequent clean pass, however, may create new marker text. -/
theorem C9_theorem (code : Str) :
    ∀ line ∈ linesOf (removeRedactedLines (redactSecrets code)),
      lineHasMarker line = false :=
  removeRedactedLines_marker_free (redactSecrets code)

/-- Witness for claim C9 at a concrete input whose first line holds a
verbatim marker next to other content. -/
theorem C9_witness : lineHasMarker ("b".toList) = false :=
  C9_theorem ("a [REDACTED]\nb".toList) ("b".toList) (by decide)

/-- Claim C10: initialization is one-time and the exclusion pattern
list is frozen afterwards — initializing again (even against different
ignore files) returns the state unchanged, a tracked-file retrieval on
an initialized generator leaves the state untouched, and every later
retrieval filters against the identical pattern list of the
initialized state. -/
theorem C10_theorem :
    (∀ (fs fs2 : List (Str × Str)) (st : GenState),
      initOnce fs2 (initOnce fs st) = initOnce fs st) ∧
    (∀ (fs fs2 : List (Str × Str)) (exts : List Str)
        (g : Except Unit Str) (st : GenState),
      (getTrackedFilesSt fs2 exts g (initOnce fs st)).1 = initOnce fs st) ∧
    (∀ (fs fs2 fs3 : List (Str × Str)) (exts : List Str)
        (g g2 : Except Unit Str) (st : GenState),
      (getTrackedFilesSt fs3 exts g2
          ((getTrackedFilesSt fs2 exts g (initOnce fs st)).1)).2 =
        getTrackedFilesModel exts (initOnce fs st).fileExclusions g2) := by
  have hin : ∀ (fs : List (Str × Str)) (st : GenState),
      (initOnce fs st).inited = true := by
    intro fs st
    unfold initOnce
    by_cases h : st.inited = true
    · rw [if_pos h]; exact h
    · rw [if_neg h]
  have hidem : ∀ (fs fs2 : List (Str × Str)) (st : GenState),
      initOnce fs2 (initOnce fs st) = initOnce fs st := by
    intro fs fs2 st
    show (if (initOnce fs st).inited then initOnce fs st
          else _) = initOnce fs st
    rw [hin fs st]
    simp
  refine ⟨hidem, ?_, ?_⟩
  · intro fs fs2 exts g st
    show initOnce fs2 (initOnce fs st) = initOnce fs st
    exact hidem fs fs2 st
  · intro fs fs2 fs3 exts g g2 st
    show getTrackedFilesModel exts
        (initOnce fs3 (initOnce fs2 (initOnce fs st))).fileExclusions g2 = _
    rw [hidem fs fs2 st, hidem fs fs3 st]

